import Mathlib

/-!
Verification of the UMTOOL-DATA audio tools: a timeline mixer
(src/exporter.py) and a loudness profiler (src/formatter.py).

The mixer is embedded over exact rationals: a decoded audio segment is a
list of sample values together with a frame rate; millisecond slicing,
pitch reinterpretation of the frame rate, gain staging and additive
overlay follow the semantics of the calls made by the source.  The
profiler's prefix-sum bucketing is embedded exactly over the rationals,
with the final square root taken in the reals.
-/

/-- Python `int(x)` applied to a real quantity: truncation toward zero. -/
def pytrunc (q : ℚ) : ℤ := if q < 0 then -⌊-q⌋ else ⌊q⌋

/-- Python `round(x)` (no digits argument): round half to even. -/
def pyround (q : ℚ) : ℤ :=
  if q - ⌊q⌋ < 1/2 then ⌊q⌋
  else if 1/2 < q - ⌊q⌋ then ⌊q⌋ + 1
  else if ⌊q⌋ % 2 = 0 then ⌊q⌋ else ⌊q⌋ + 1

/-- Python `max` over a list, with a default for the empty list (the
sources only apply it to a nonempty list, or guard the empty case). -/
def pymax {α : Type} [LinearOrder α] (d : α) : List α → α
  | [] => d
  | x :: xs => xs.foldl max x

theorem pytrunc_nonneg {q : ℚ} (h : 0 ≤ q) : 0 ≤ pytrunc q := by
  unfold pytrunc
  rw [if_neg (not_lt.mpr h)]
  exact Int.floor_nonneg.mpr h

theorem pytrunc_nonpos {q : ℚ} (h : q ≤ 0) : pytrunc q ≤ 0 := by
  unfold pytrunc
  by_cases hq : q < 0
  · rw [if_pos hq]
    have : (0:ℤ) ≤ ⌊-q⌋ := Int.floor_nonneg.mpr (by linarith)
    omega
  · rw [if_neg hq]
    have hq0 : q = 0 := le_antisymm h (not_lt.mp hq)
    simp [hq0]

theorem pytrunc_mono {q r : ℚ} (h : q ≤ r) : pytrunc q ≤ pytrunc r := by
  unfold pytrunc
  by_cases hq : q < 0
  · by_cases hr : r < 0
    · rw [if_pos hq, if_pos hr]
      have : ⌊-r⌋ ≤ ⌊-q⌋ := Int.floor_mono (by linarith)
      omega
    · rw [if_pos hq, if_neg hr]
      have h1 : (0:ℤ) ≤ ⌊-q⌋ := Int.floor_nonneg.mpr (by linarith)
      have h2 : (0:ℤ) ≤ ⌊r⌋ := Int.floor_nonneg.mpr (not_lt.mp hr)
      omega
  · rw [if_neg hq, if_neg (not_lt.mpr (le_trans (not_lt.mp hq) h))]
    exact Int.floor_mono h

theorem pytrunc_intCast (n : ℤ) : pytrunc (n : ℚ) = n := by
  unfold pytrunc
  by_cases h : (n:ℚ) < 0
  · rw [if_pos h]
    rw [show (-(n:ℚ)) = ((-n : ℤ) : ℚ) by push_cast; ring, Int.floor_intCast]
    omega
  · rw [if_neg h, Int.floor_intCast]

theorem pyround_nonneg {q : ℚ} (h : 0 ≤ q) : 0 ≤ pyround q := by
  unfold pyround
  have h0 : (0:ℤ) ≤ ⌊q⌋ := Int.floor_nonneg.mpr h
  split_ifs <;> omega

theorem pyround_natCast (k : ℕ) : pyround (k : ℚ) = k := by
  unfold pyround
  rw [show ((k:ℚ)) = ((k : ℤ) : ℚ) by push_cast; ring, Int.floor_intCast]
  norm_num

theorem le_foldl_max {α : Type} [LinearOrder α] (l : List α) (a : α) :
    a ≤ l.foldl max a := by
  induction l generalizing a with
  | nil => exact le_refl a
  | cons y ys ih => exact le_trans (le_max_left a y) (ih (max a y))

theorem mem_le_foldl_max {α : Type} [LinearOrder α] {l : List α} {x : α}
    (hx : x ∈ l) (a : α) : x ≤ l.foldl max a := by
  induction l generalizing a with
  | nil => cases hx
  | cons y ys ih =>
    rcases List.mem_cons.mp hx with h | h
    · subst h
      exact le_trans (le_max_right a x) (le_foldl_max ys (max a x))
    · exact ih h (max a y)

theorem foldl_max_mem {α : Type} [LinearOrder α] (l : List α) (a : α) :
    l.foldl max a = a ∨ l.foldl max a ∈ l := by
  induction l generalizing a with
  | nil => exact Or.inl rfl
  | cons y ys ih =>
    rcases ih (max a y) with h | h
    · rcases max_choice a y with hm | hm
      · exact Or.inl (by rw [List.foldl_cons, h, hm])
      · exact Or.inr (by rw [List.foldl_cons, h, hm]; exact List.mem_cons_self y ys)
    · exact Or.inr (List.mem_cons_of_mem y h)

theorem pymax_mem {α : Type} [LinearOrder α] (d : α) {l : List α}
    (h : l ≠ []) : pymax d l ∈ l := by
  cases l with
  | nil => exact absurd rfl h
  | cons x xs =>
    rcases foldl_max_mem xs x with h1 | h1
    · rw [pymax, h1]; exact List.mem_cons_self x xs
    · exact List.mem_cons_of_mem x (by rw [pymax]; exact h1)

theorem le_pymax {α : Type} [LinearOrder α] (d : α) {l : List α} {x : α}
    (hx : x ∈ l) : x ≤ pymax d l := by
  cases l with
  | nil => cases hx
  | cons y ys =>
    rcases List.mem_cons.mp hx with h | h
    · subst h; exact le_foldl_max ys x
    · exact mem_le_foldl_max h y

theorem pymax_perm {α : Type} [LinearOrder α] (d : α) {l₁ l₂ : List α}
    (h : l₁.Perm l₂) : pymax d l₁ = pymax d l₂ := by
  cases l₁ with
  | nil =>
    have : l₂ = [] := h.symm.eq_nil
    rw [this]
  | cons x xs =>
    have h1 : l₂ ≠ [] := by
      intro hc; rw [hc] at h; exact List.cons_ne_nil x xs h.eq_nil
    have hne : (x :: xs) ≠ [] := List.cons_ne_nil x xs
    apply le_antisymm
    · exact le_pymax d (h.mem_iff.mp (pymax_mem d hne))
    · exact le_pymax d (h.mem_iff.mpr (pymax_mem d h1))

theorem foldl_perm_eq {α β : Type} {f : β → α → β}
    (hf : ∀ b x y, f (f b x) y = f (f b y) x) :
    ∀ {l₁ l₂ : List α}, l₁.Perm l₂ → ∀ b, List.foldl f b l₁ = List.foldl f b l₂ := by
  intro l₁ l₂ h
  induction h with
  | nil => intro b; rfl
  | cons x h ih =>
    intro b
    simp only [List.foldl_cons]
    exact ih (f b x)
  | swap x y l =>
    intro b
    simp only [List.foldl_cons]
    rw [hf b y x]
  | trans h₁ h₂ ih₁ ih₂ =>
    intro b
    rw [ih₁ b, ih₂ b]

/-- A decoded mono audio buffer: sample values (exact rationals standing
for the decoded amplitudes) plus a frame rate in Hz, as held by a pydub
`AudioSegment` in src/exporter.py. -/
structure AudioSegment where
  samples : List ℚ
  frameRate : ℕ
deriving DecidableEq

/-- The epsilon floor `1e-8` of src/exporter.py lines 94-95 (volume and
pitch are clamped up to it). -/
def epsFloor : ℚ := 1 / 100000000

/-- The clamp `max(value, 1e-8)` applied to volume and pitch. -/
def clampParam (v : ℚ) : ℚ := max v epsFloor

/-- pydub `len(seg)`: the duration in whole milliseconds,
`round(1000 * (frame_count / frame_rate))`. -/
def lenMs (a : AudioSegment) : ℤ :=
  pyround (1000 * ((a.samples.length : ℚ) / (a.frameRate : ℚ)))

/-- pydub `int(seg.frame_count(ms))`: a millisecond position converted to
a frame index, `int(ms * (frame_rate / 1000.0))`. -/
def frameCountMs (a : AudioSegment) (ms : ℤ) : ℤ :=
  pytrunc ((ms : ℚ) * ((a.frameRate : ℚ) / 1000))

/-- pydub `get_sample_slice` bounding of a frame index to `[0, frame_count]`. -/
def boundFrame (a : AudioSegment) (i : ℤ) : ℕ :=
  min i.toNat a.samples.length

/-- pydub `get_sample_slice(start_sample, end_sample)`: both indices are
bounded to the available frames and the raw data in between is taken
(empty when the bounded start is at or past the bounded end). -/
def getSampleSlice (a : AudioSegment) (i j : ℤ) : AudioSegment :=
  { samples := (a.samples.drop (boundFrame a i)).take (boundFrame a j - boundFrame a i),
    frameRate := a.frameRate }

/-- pydub slicing `seg[startMs:endMs]` (src/exporter.py line 107): each
millisecond bound is first capped at `len(seg)`, a negative bound is then
interpreted relative to the end, and the bounds are converted to frame
indices. -/
def sliceMs (a : AudioSegment) (startMs endMs : ℤ) : AudioSegment :=
  getSampleSlice a
    (frameCountMs a (if min startMs (lenMs a) < 0
                     then min startMs (lenMs a) + lenMs a
                     else min startMs (lenMs a)))
    (frameCountMs a (if min endMs (lenMs a) < 0
                     then min endMs (lenMs a) + lenMs a
                     else min endMs (lenMs a)))

/-- src/exporter.py lines 100-102: reinterpret the frame rate as
`int(frame_rate * pitch)` without touching the sample data. -/
def pitchResample (a : AudioSegment) (pitch : ℚ) : AudioSegment :=
  { samples := a.samples, frameRate := (pytrunc ((a.frameRate : ℚ) * pitch)).toNat }

/-- src/exporter.py lines 110-111: the gain `20*log10(volume)` dB applied
to every sample; in linear amplitude terms this scales each sample by
`volume` exactly, which is how it is embedded here. -/
def applyGainScale (a : AudioSegment) (v : ℚ) : AudioSegment :=
  { samples := a.samples.map (fun s => v * s), frameRate := a.frameRate }

/-- The wall-clock duration of a segment in seconds. -/
def durationSeconds (a : AudioSegment) : ℚ :=
  (a.samples.length : ℚ) / (a.frameRate : ℚ)

/-- pydub `AudioSegment.silent(duration_ms)` at a given frame rate:
`int(frame_rate * (duration / 1000.0))` zero samples. -/
def silentMs (ms : ℤ) (rate : ℕ) : AudioSegment :=
  { samples := List.replicate (pytrunc ((rate : ℚ) * ((ms : ℚ) / 1000))).toNat 0,
    frameRate := rate }

/-- One clip specification of the mix plan (src/exporter.py CLI): timeline
offset, head trim start, extracted length (all seconds), linear volume
scale and pitch scale. -/
structure ClipSpec where
  offset : ℚ
  start : ℚ
  length : ℚ
  volume : ℚ
  pitch : ℚ
deriving DecidableEq

/-- src/exporter.py lines 86-88: the estimated end time of a clip on the
output timeline, `offset + length / max(pitch, 1e-8)`. -/
def estEnd (c : ClipSpec) : ℚ := c.offset + c.length / clampParam c.pitch

/-- src/exporter.py lines 94-111: per-clip shaping of a decoded segment —
clamp volume and pitch to the epsilon floor, reinterpret the frame rate by
the pitch scale, slice `[start, start+length)` in post-pitch milliseconds
`int(start*1000)` and `int(length*1000)`, then apply the gain. -/
def clipTransform (audio : AudioSegment) (start length volume pitch : ℚ) : AudioSegment :=
  applyGainScale
    (sliceMs (pitchResample audio (clampParam pitch))
      (pytrunc (start * 1000))
      (pytrunc (start * 1000) + pytrunc (length * 1000)))
    (clampParam volume)

/-- Modelled from the spec: overlay is per-sample addition of the source
into the destination starting at frame `p`, clamped to the destination's
bounds (the summing itself lives in pydub's `overlay`/`audioop.add`, not
under src/; the spec fixes it as commutative addition, embedded here over
exact rationals). -/
def overlayList : List ℚ → List ℚ → ℕ → List ℚ
  | [], _, _ => []
  | b :: bs, src, p + 1 => b :: overlayList bs src p
  | b :: bs, [], 0 => b :: bs
  | b :: bs, s :: ss, 0 => (b + s) :: overlayList bs ss 0

/-- The destination frame at which an overlay at millisecond `posMs`
starts, following pydub's millisecond slicing of the canvas. -/
def overlayPosFrame (base : AudioSegment) (posMs : ℤ) : ℕ :=
  boundFrame base
    (frameCountMs base (if min posMs (lenMs base) < 0
                        then min posMs (lenMs base) + lenMs base
                        else min posMs (lenMs base)))

/-- src/exporter.py line 114: `canvas.overlay(segment, position=posMs)`. -/
def overlayMs (base seg : AudioSegment) (posMs : ℤ) : AudioSegment :=
  { samples := overlayList base.samples seg.samples (overlayPosFrame base posMs),
    frameRate := base.frameRate }

/-- The estimated end times of all clips (src/exporter.py lines 84-88). -/
def estEndTimes (clips : List (ClipSpec × AudioSegment)) : List ℚ :=
  clips.map (fun c => estEnd c.1)

/-- src/exporter.py line 89 before the millisecond conversion:
`max(est_end_times)`, the derived total duration in seconds. -/
def totalEndSeconds (clips : List (ClipSpec × AudioSegment)) : ℚ :=
  pymax 0 (estEndTimes clips)

/-- One iteration of the mix loop (src/exporter.py lines 93-114): shape
the clip and overlay it at `int(offset * 1000)` milliseconds. -/
def mixStep (acc : AudioSegment) (c : ClipSpec × AudioSegment) : AudioSegment :=
  overlayMs acc (clipTransform c.2 c.1.start c.1.length c.1.volume c.1.pitch)
    (pytrunc (c.1.offset * 1000))

/-- src/exporter.py lines 83-114: allocate a silent canvas of
`int(max(est_end_times) * 1000)` milliseconds and fold every clip onto it.
The canvas frame rate is the plan's output rate (the spec's mix sample
rate; pydub's channel/rate synchronisation is an external collaborator). -/
def mixCanvas (rate : ℕ) (clips : List (ClipSpec × AudioSegment)) : AudioSegment :=
  clips.foldl mixStep (silentMs (pytrunc (totalEndSeconds clips * 1000)) rate)

/-- src/exporter.py lines 79-81: the chained equal-length validation of
the parallel CLI lists. -/
def parallelLengthsOk (files : List String)
    (offsets starts lengths volumes pitches : List ℚ) : Prop :=
  files.length = offsets.length ∧ offsets.length = starts.length ∧
  starts.length = lengths.length ∧ lengths.length = volumes.length ∧
  volumes.length = pitches.length

instance (files : List String) (offsets starts lengths volumes pitches : List ℚ) :
    Decidable (parallelLengthsOk files offsets starts lengths volumes pitches) := by
  unfold parallelLengthsOk; infer_instance

/-- Python `zip` over the six parallel lists, decoding each file
(decode is the external collaborator, passed as an oracle). -/
def buildClips (decode : String → AudioSegment) :
    List String → List ℚ → List ℚ → List ℚ → List ℚ → List ℚ →
    List (ClipSpec × AudioSegment)
  | f :: fs, o :: os, s :: ss, l :: ls, v :: vs, p :: ps =>
    ({ offset := o, start := s, length := l, volume := v, pitch := p }, decode f)
      :: buildClips decode fs os ss ls vs ps
  | _, _, _, _, _, _ => []

/-- src/exporter.py `main` after argument parsing: fail fatally on a
parallel-list length mismatch (`parser.error`, modelled as `Except.error`)
before anything is decoded or allocated, otherwise run the mix. -/
def runMix (rate : ℕ) (decode : String → AudioSegment) (files : List String)
    (offsets starts lengths volumes pitches : List ℚ) : Except String AudioSegment :=
  if parallelLengthsOk files offsets starts lengths volumes pitches then
    Except.ok (mixCanvas rate (buildClips decode files offsets starts lengths volumes pitches))
  else
    Except.error "All argument lists must be the same length."

/-- src/exporter.py line 110: the gain in dB, `20 * log10(volume)`, after
the clamp of line 94 — a finite real for every input volume. -/
noncomputable def gainDb (v : ℚ) : ℝ :=
  20 * Real.logb 10 ((clampParam v : ℚ) : ℝ)

/-- src/formatter.py line 71: per-sample squared amplitude. -/
def powerList (y : List ℚ) : List ℚ := y.map (fun v => v ^ 2)

/-- src/formatter.py line 72: the prefix sums of the squared amplitudes
with a leading zero, `np.concatenate(([0.0], np.cumsum(power)))`. -/
def cumsumList (y : List ℚ) : List ℚ := (powerList y).scanl (· + ·) 0

/-- src/formatter.py line 75: `max(int(round(spacing * sr)), 1)`. -/
def spacingSamples (sr : ℕ) (spacing : ℚ) : ℕ :=
  (max (pyround (spacing * (sr : ℚ))) 1).toNat

/-- src/formatter.py line 76: `int(math.ceil(len(y) / spacing_samples))`. -/
def nIntervals (y : List ℚ) (sr : ℕ) (spacing : ℚ) : ℕ :=
  (⌈(y.length : ℚ) / (spacingSamples sr spacing : ℚ)⌉).toNat

/-- src/formatter.py lines 78-85 without the final square root: for each
bucket, `start = spacing_samples * i`, `end = min(start + ss, len(y))`,
sum from the two prefix-sum lookups, length `max(end - start, 1)`, and
the mean power `sum / length` (the rms is its square root). -/
def bucketMeanPowers (y : List ℚ) (sr : ℕ) (spacing : ℚ) : List ℚ :=
  (List.range (nIntervals y sr spacing)).map (fun i =>
    ((cumsumList y).getD (min (spacingSamples sr spacing * i + spacingSamples sr spacing) y.length) 0
      - (cumsumList y).getD (spacingSamples sr spacing * i) 0)
    / max ((min (spacingSamples sr spacing * i + spacingSamples sr spacing) y.length : ℚ)
            - (spacingSamples sr spacing * i : ℚ)) 1)

/-- src/formatter.py line 85: `rms = np.sqrt(sums / lengths)`, one value
per bucket, taken in the reals. -/
noncomputable def rmsList (y : List ℚ) (sr : ℕ) (spacing : ℚ) : List ℝ :=
  (bucketMeanPowers y sr spacing).map (fun q => Real.sqrt ((q : ℚ) : ℝ))

/-- src/formatter.py lines 87-92: `max_r = np.max(rms)` (1.0 for an empty
list); a fully zero maximum yields all zeros, otherwise
`normalized = np.minimum(rms / max_r, 1.0)`. -/
noncomputable def loudnessProfile (y : List ℚ) (sr : ℕ) (spacing : ℚ) : List ℝ :=
  if pymax 1 (rmsList y sr spacing) = 0 then
    (rmsList y sr spacing).map (fun _ => 0)
  else
    (rmsList y sr spacing).map (fun r => min (r / pymax 1 (rmsList y sr spacing)) 1)

/-- Modelled from the spec: the energy of one analysis frame of
`librosa.effects.trim` (the trimmer itself is library code, not under
src/) — the sum of squared samples in the window starting at `start`. -/
def frameEnergy (y : List ℚ) (start fl : ℕ) : ℚ :=
  ((y.drop start).take fl).foldl (fun a v => a + v ^ 2) 0

/-- Modelled from the spec: the analysis frames advance by `hop` samples
and cover the whole signal; this is the list of their energies. -/
def trimFrameEnergies (y : List ℚ) (fl hop : ℕ) : List ℚ :=
  (List.range ((y.length + hop - 1) / hop)).map (fun i => frameEnergy y (i * hop) fl)

/-- Modelled from the spec: the peak frame energy of the signal. -/
def trimPeak (y : List ℚ) (fl hop : ℕ) : ℚ :=
  pymax 0 (trimFrameEnergies y fl hop)

/-- Modelled from the spec: `librosa.effects.trim` — keep the sample
range spanning the first through last frame whose energy is within the
threshold of the peak (the dB threshold `top_db` is expressed here as the
equivalent linear energy ratio `ratio`, 10^(-top_db/10)); when no frame
qualifies the trimmed result is empty. -/
def librosaTrim (y : List ℚ) (ratio : ℚ) (fl hop : ℕ) : List ℚ :=
  match ((List.range ((y.length + hop - 1) / hop)).filter
      (fun i => decide (ratio * trimPeak y fl hop < frameEnergy y (i * hop) fl))).head?,
    ((List.range ((y.length + hop - 1) / hop)).filter
      (fun i => decide (ratio * trimPeak y fl hop < frameEnergy y (i * hop) fl))).getLast? with
  | some i, some j => (y.drop (i * hop)).take (j * hop + fl - i * hop)
  | _, _ => []

/-- src/formatter.py lines 37-45 `robust_trim`: pass the signal through
unchanged when trimming is disabled; otherwise trim, and fall back to the
original signal when the trimmed result is empty. -/
def robust_trim (y : List ℚ) (enableTrim : Bool) (ratio : ℚ) (fl hop : ℕ) : List ℚ :=
  if enableTrim = false then y
  else if 0 < (librosaTrim y ratio fl hop).length then librosaTrim y ratio fl hop
  else y

theorem overlayList_nil (b : List ℚ) (p : ℕ) : overlayList b [] p = b := by
  induction b generalizing p with
  | nil => rfl
  | cons x xs ih =>
    cases p with
    | zero => rfl
    | succ q => rw [overlayList, ih]

theorem overlayList_length (b s : List ℚ) (p : ℕ) :
    (overlayList b s p).length = b.length := by
  induction b generalizing s p with
  | nil => rfl
  | cons x xs ih =>
    cases p with
    | zero =>
      cases s with
      | nil => rfl
      | cons a as => simpa [overlayList] using ih as 0
    | succ q => simpa [overlayList] using ih s q

theorem overlayList_comm (b s t : List ℚ) (p q : ℕ) :
    overlayList (overlayList b s p) t q = overlayList (overlayList b t q) s p := by
  induction b generalizing s t p q with
  | nil =>
    cases s <;> cases t <;> cases p <;> cases q <;> rfl
  | cons x xs ih =>
    cases p <;> cases q <;> cases s <;> cases t <;>
      (try simp only [overlayList, overlayList_nil]) <;>
      first
        | rfl
        | exact congrArg (List.cons _) (ih _ _ _ _)
        | exact congrArg₂ List.cons (add_right_comm _ _ _) (ih _ _ _ _)

theorem overlayPosFrame_congr {a b : AudioSegment} (m : ℤ)
    (h1 : a.samples.length = b.samples.length) (h2 : a.frameRate = b.frameRate) :
    overlayPosFrame a m = overlayPosFrame b m := by
  unfold overlayPosFrame boundFrame frameCountMs lenMs
  rw [h1, h2]

theorem overlayMs_samples_length (base seg : AudioSegment) (m : ℤ) :
    (overlayMs base seg m).samples.length = base.samples.length :=
  overlayList_length base.samples seg.samples (overlayPosFrame base m)

theorem overlayMs_comm (c s₁ s₂ : AudioSegment) (m₁ m₂ : ℤ) :
    overlayMs (overlayMs c s₁ m₁) s₂ m₂ = overlayMs (overlayMs c s₂ m₂) s₁ m₁ := by
  unfold overlayMs
  simp only
  have e₂ : overlayPosFrame
      { samples := overlayList c.samples s₁.samples (overlayPosFrame c m₁),
        frameRate := c.frameRate } m₂ = overlayPosFrame c m₂ :=
    overlayPosFrame_congr m₂ (overlayList_length _ _ _) rfl
  have e₁ : overlayPosFrame
      { samples := overlayList c.samples s₂.samples (overlayPosFrame c m₂),
        frameRate := c.frameRate } m₁ = overlayPosFrame c m₁ :=
    overlayPosFrame_congr m₁ (overlayList_length _ _ _) rfl
  rw [e₂, e₁, overlayList_comm]

theorem mixStep_comm (acc : AudioSegment) (x y : ClipSpec × AudioSegment) :
    mixStep (mixStep acc x) y = mixStep (mixStep acc y) x := by
  unfold mixStep
  exact overlayMs_comm acc _ _ _ _

theorem foldl_mixStep_length (clips : List (ClipSpec × AudioSegment))
    (acc : AudioSegment) :
    (clips.foldl mixStep acc).samples.length = acc.samples.length := by
  induction clips generalizing acc with
  | nil => rfl
  | cons c cs ih =>
    rw [List.foldl_cons, ih]
    exact overlayMs_samples_length acc _ _

/-- C1: for every nonempty mix plan, the output canvas of `mix` has the
length of a silent canvas of `int(totalDurationSeconds * 1000)`
milliseconds, where `totalDurationSeconds = max(offset + length /
max(pitch, 1e-8))` over the clips; every clip's estimated end time is at
most this total, and the maximizing clip attains it exactly. -/
theorem C1_total_duration (rate : ℕ) (clips : List (ClipSpec × AudioSegment))
    (h : clips ≠ []) :
    (mixCanvas rate clips).samples.length
      = (pytrunc ((rate : ℚ) * (((pytrunc (totalEndSeconds clips * 1000) : ℤ) : ℚ) / 1000))).toNat
    ∧ (∀ c ∈ clips, estEnd c.1 ≤ totalEndSeconds clips)
    ∧ (∃ c ∈ clips, estEnd c.1 = totalEndSeconds clips) := by
  refine ⟨?_, ?_, ?_⟩
  · rw [mixCanvas, foldl_mixStep_length]
    simp [silentMs]
  · intro c hc
    exact le_pymax 0 (List.mem_map_of_mem _ hc)
  · have hne : estEndTimes clips ≠ [] := by
      cases clips with
      | nil => exact absurd rfl h
      | cons a l => simp [estEndTimes]
    rcases List.mem_map.mp (pymax_mem 0 hne) with ⟨c, hc, hce⟩
    exact ⟨c, hc, hce⟩

def clipC1 : ClipSpec × AudioSegment :=
  ({ offset := 0, start := 0, length := 1, volume := 1, pitch := 1 },
   { samples := List.replicate 4 1, frameRate := 4 })

/-- Witness for C1 at a concrete one-clip plan. -/
theorem C1_total_duration_witness :
    ([clipC1] ≠ ([] : List (ClipSpec × AudioSegment)))
    ∧ (mixCanvas 4 [clipC1]).samples.length
        = (pytrunc ((4 : ℚ) * (((pytrunc (totalEndSeconds [clipC1] * 1000) : ℤ) : ℚ) / 1000))).toNat
    ∧ (∃ c ∈ [clipC1], estEnd c.1 = totalEndSeconds [clipC1]) :=
  ⟨List.cons_ne_nil _ _,
   (C1_total_duration 4 [clipC1] (List.cons_ne_nil _ _)).1,
   (C1_total_duration 4 [clipC1] (List.cons_ne_nil _ _)).2.2⟩

/-- C2: mixing any permutation of the clip list yields an identical
output canvas — overlay is commutative per-sample addition, so the fold
over the clips is order-independent. -/
theorem C2_overlay_commutes (rate : ℕ)
    (clips₁ clips₂ : List (ClipSpec × AudioSegment)) (h : clips₁.Perm clips₂) :
    mixCanvas rate clips₁ = mixCanvas rate clips₂ := by
  have hperm : (estEndTimes clips₁).Perm (estEndTimes clips₂) :=
    h.map (fun c : ClipSpec × AudioSegment => estEnd c.1)
  unfold mixCanvas
  rw [show totalEndSeconds clips₁ = totalEndSeconds clips₂ from pymax_perm 0 hperm]
  exact foldl_perm_eq mixStep_comm h _

def clipC2a : ClipSpec × AudioSegment :=
  ({ offset := 0, start := 0, length := 1, volume := 1, pitch := 1 },
   { samples := List.replicate 2 1, frameRate := 2 })

def clipC2b : ClipSpec × AudioSegment :=
  ({ offset := 1/2, start := 0, length := 1, volume := 1/2, pitch := 1 },
   { samples := List.replicate 2 (1/2), frameRate := 2 })

/-- Witness for C2 at a concrete two-clip plan and its swap. -/
theorem C2_overlay_commutes_witness :
    mixCanvas 2 [clipC2a, clipC2b] = mixCanvas 2 [clipC2b, clipC2a] :=
  C2_overlay_commutes 2 _ _ (List.Perm.swap clipC2b clipC2a [])

def audioC5 : AudioSegment := { samples := List.replicate 200 0, frameRate := 100 }

/-- C5: a 2.0-second clip pitched by 0.5 plays for 4.0 seconds after the
pitch-resample step, and with `length = 2.0` the mixer's stretched
duration estimate `length / max(pitch, 1e-8)` is likewise 4.0 seconds. -/
theorem C5_half_pitch_doubles_duration :
    durationSeconds audioC5 = 2
    ∧ durationSeconds (pitchResample audioC5 (clampParam (1/2))) = 4
    ∧ estEnd { offset := 0, start := 0, length := 2, volume := 1, pitch := 1/2 } = 4 := by
  have hc : clampParam (1/2 : ℚ) = 1/2 := by
    rw [clampParam, max_eq_left (by norm_num [epsFloor])]
  refine ⟨?_, ?_, ?_⟩
  · rw [durationSeconds]
    simp only [audioC5, List.length_replicate]
    norm_num
  · have hr : (pitchResample audioC5 (clampParam (1/2))).frameRate = 50 := by
      rw [pitchResample, hc]
      simp only [audioC5]
      rw [show (((100:ℕ) : ℚ) * (1/2)) = 50 by norm_num]
      rw [show pytrunc (50 : ℚ) = 50 from by norm_num [pytrunc]]
      rfl
    have hs : (pitchResample audioC5 (clampParam (1/2))).samples.length = 200 := by
      rw [pitchResample]
      simp only [audioC5, List.length_replicate]
    rw [durationSeconds, hr, hs]
    norm_num
  · simp only [estEnd]
    rw [hc]
    norm_num

/-- C6: after clamping, volume and pitch are strictly positive, so the
stretched-duration division has a nonzero denominator, the dB gain
`20*log10(volume)` is a finite real bounded below by -160 dB (attained at
the 1e-8 floor), and a pitch at or below the floor is clamped to the
floor — the estimate stays finite (extremely slow playback). -/
theorem C6_epsilon_floor_safety (c : ClipSpec) :
    0 < clampParam c.volume
    ∧ 0 < clampParam c.pitch
    ∧ clampParam c.pitch ≠ 0
    ∧ (-160 : ℝ) ≤ gainDb c.volume
    ∧ (c.pitch ≤ epsFloor →
        clampParam c.pitch = epsFloor ∧ estEnd c = c.offset + c.length * 100000000) := by
  have hpos : ∀ v : ℚ, 0 < clampParam v := fun v =>
    lt_of_lt_of_le (by norm_num [epsFloor]) (le_max_right v epsFloor)
  refine ⟨hpos c.volume, hpos c.pitch, ne_of_gt (hpos c.pitch), ?_, ?_⟩
  · have hle : ((epsFloor : ℚ) : ℝ) ≤ ((clampParam c.volume : ℚ) : ℝ) := by
      exact_mod_cast le_max_right c.volume epsFloor
    have he : ((epsFloor : ℚ) : ℝ) = ((10 : ℝ) ^ (8 : ℕ))⁻¹ := by
      norm_num [epsFloor]
    have hlog : Real.logb 10 ((epsFloor : ℚ) : ℝ) = -8 := by
      rw [he, Real.logb_inv, Real.logb_pow, Real.logb_self_eq_one (by norm_num)]
      norm_num
    have hmono : Real.logb 10 ((epsFloor : ℚ) : ℝ)
        ≤ Real.logb 10 ((clampParam c.volume : ℚ) : ℝ) :=
      Real.logb_le_logb_of_le (by norm_num) (by rw [he]; positivity) hle
    rw [gainDb]
    linarith [hmono, hlog]
  · intro hp
    have h2 : clampParam c.pitch = epsFloor := max_eq_right hp
    refine ⟨h2, ?_⟩
    rw [estEnd, h2, epsFloor, div_eq_mul_inv, one_div, inv_inv]

/-- C8: when any two of the parallel argument lists differ in length, the
mixer fails with the configuration-mismatch error, and the result does
not depend on the decode collaborator at all — nothing is decoded and no
canvas is built before the validation. -/
theorem C8_parallel_list_mismatch (rate : ℕ) (decode : String → AudioSegment)
    (files : List String) (offsets starts lengths volumes pitches : List ℚ)
    (h : ¬ parallelLengthsOk files offsets starts lengths volumes pitches) :
    runMix rate decode files offsets starts lengths volumes pitches
      = Except.error "All argument lists must be the same length."
    ∧ ∀ decode₂ : String → AudioSegment,
        runMix rate decode files offsets starts lengths volumes pitches
          = runMix rate decode₂ files offsets starts lengths volumes pitches := by
  constructor
  · rw [runMix, if_neg h]
  · intro d₂
    rw [runMix, if_neg h, runMix, if_neg h]

/-- Witness for C8: two files but only one of every other argument. -/
theorem C8_parallel_list_mismatch_witness :
    (¬ parallelLengthsOk ["a", "b"] [0] [0] [0] [0] [0])
    ∧ runMix 1 (fun _ => { samples := [], frameRate := 1 }) ["a", "b"] [0] [0] [0] [0] [0]
        = Except.error "All argument lists must be the same length." :=
  ⟨by decide,
   (C8_parallel_list_mismatch 1 (fun _ => { samples := [], frameRate := 1 })
     ["a", "b"] [0] [0] [0] [0] [0] (by decide)).1⟩

def audioC9 : AudioSegment := { samples := List.replicate 40 1, frameRate := 10 }

/-- C9 counterexample: `length = -2` (so `length <= 0`) on a 4-second
clip does not yield an empty Signal — the negative millisecond end index
`int(-2 * 1000)` wraps to 2000 ms from the clip's end, and the transform
extracts 20 samples (2 seconds of audio). -/
theorem C9_counterexample :
    (-2 : ℚ) ≤ 0 ∧ (clipTransform audioC9 0 (-2) 1 1).samples.length = 20 := by
  have hcp : clampParam (1:ℚ) = 1 := max_eq_left (by norm_num [epsFloor])
  have hpr : pitchResample audioC9 (clampParam 1) = audioC9 := by
    rw [pitchResample, hcp]
    simp only [audioC9]
    norm_num [pytrunc]
    rfl
  have hs : pytrunc ((0:ℚ) * 1000) = 0 := by norm_num [pytrunc]
  have hl : pytrunc ((-2:ℚ) * 1000) = -2000 := by norm_num [pytrunc]
  have hlen : lenMs audioC9 = 4000 := by
    rw [lenMs]
    simp only [audioC9, List.length_replicate]
    norm_num [pyround]
  refine ⟨by norm_num, ?_⟩
  rw [clipTransform, applyGainScale]
  simp only [List.length_map]
  rw [hpr, hs, hl, sliceMs, hlen]
  norm_num
  rw [show frameCountMs audioC9 0 = 0 from by rw [frameCountMs]; norm_num [pytrunc]]
  rw [show frameCountMs audioC9 2000 = 20 from by
    rw [frameCountMs]; simp only [audioC9]; norm_num [pytrunc]]
  rw [getSampleSlice]
  simp only [boundFrame, audioC9, List.length_replicate]
  norm_num
  decide

/-- C9 amended: for `length <= 0`, ClipTransform yields an empty Signal
provided the millisecond slice end `int(start*1000) + int(length*1000)`
is not negative (a negative end index instead wraps to the clip's tail
and can extract audio, as the counterexample shows). -/
theorem C9_amended_empty (audio : AudioSegment) (start len vol pitch : ℚ)
    (hlen : len ≤ 0)
    (he : 0 ≤ pytrunc (start * 1000) + pytrunc (len * 1000)) :
    (clipTransform audio start len vol pitch).samples = [] := by
  have hlM : pytrunc (len * 1000) ≤ 0 := pytrunc_nonpos (by linarith)
  have hsM : 0 ≤ pytrunc (start * 1000) := by omega
  have hL : 0 ≤ lenMs (pitchResample audio (clampParam pitch)) := by
    rw [lenMs]
    apply pyround_nonneg
    positivity
  rw [clipTransform, applyGainScale]
  simp only [List.map_eq_nil_iff]
  rw [sliceMs]
  rw [if_neg (not_lt.mpr (le_min hsM hL)), if_neg (not_lt.mpr (le_min he hL))]
  have hmm : min (pytrunc (start * 1000) + pytrunc (len * 1000))
        (lenMs (pitchResample audio (clampParam pitch)))
      ≤ min (pytrunc (start * 1000)) (lenMs (pitchResample audio (clampParam pitch))) :=
    min_le_min (by omega) (le_refl _)
  have hF : frameCountMs (pitchResample audio (clampParam pitch))
        (min (pytrunc (start * 1000) + pytrunc (len * 1000))
          (lenMs (pitchResample audio (clampParam pitch))))
      ≤ frameCountMs (pitchResample audio (clampParam pitch))
        (min (pytrunc (start * 1000)) (lenMs (pitchResample audio (clampParam pitch)))) := by
    rw [frameCountMs, frameCountMs]
    apply pytrunc_mono
    apply mul_le_mul_of_nonneg_right
    · exact_mod_cast hmm
    · positivity
  rw [getSampleSlice]
  have hB : boundFrame (pitchResample audio (clampParam pitch))
        (frameCountMs (pitchResample audio (clampParam pitch))
          (min (pytrunc (start * 1000) + pytrunc (len * 1000))
            (lenMs (pitchResample audio (clampParam pitch)))))
      ≤ boundFrame (pitchResample audio (clampParam pitch))
        (frameCountMs (pitchResample audio (clampParam pitch))
          (min (pytrunc (start * 1000)) (lenMs (pitchResample audio (clampParam pitch))))) := by
    rw [boundFrame, boundFrame]
    exact min_le_min (Int.toNat_le_toNat hF) (le_refl _)
  simp only
  rw [Nat.sub_eq_zero_of_le hB, List.take_zero]

/-- Witness for the amended C9: `start = 3`, `length = -2` gives a slice
end of `3000 - 2000 = 1000 >= 0` milliseconds, and the result is empty. -/
theorem C9_amended_empty_witness :
    (-2 : ℚ) ≤ 0
    ∧ 0 ≤ pytrunc ((3:ℚ) * 1000) + pytrunc ((-2:ℚ) * 1000)
    ∧ (clipTransform audioC9 3 (-2) 1 1).samples = [] :=
  ⟨by norm_num,
   by norm_num [pytrunc],
   C9_amended_empty audioC9 3 (-2) 1 1 (by norm_num) (by norm_num [pytrunc])⟩

def audioC10 : AudioSegment := { samples := List.replicate 20 (1/2), frameRate := 1000 }

/-- C10 counterexample: `start = -1/2000` is negative, yet the trim index
`int(start * 1000) = int(-0.5)` truncates toward zero to 0, so nothing is
interpreted relative to the clip's end: the transform extracts the whole
clip from its head (all 20 samples of the 0.02-second clip). -/
theorem C10_counterexample :
    (-1/2000 : ℚ) < 0
    ∧ pytrunc ((-1/2000 : ℚ) * 1000) = 0
    ∧ (clipTransform audioC10 (-1/2000) (1/50) 1 1).samples.length = 20 := by
  have hcp : clampParam (1:ℚ) = 1 := max_eq_left (by norm_num [epsFloor])
  have hpr : pitchResample audioC10 (clampParam 1) = audioC10 := by
    rw [pitchResample, hcp]
    simp only [audioC10]
    norm_num [pytrunc]
    rfl
  have hs : pytrunc ((-1/2000 : ℚ) * 1000) = 0 := by norm_num [pytrunc]
  have hl : pytrunc ((1/50 : ℚ) * 1000) = 20 := by norm_num [pytrunc]
  have hlen : lenMs audioC10 = 20 := by
    rw [lenMs]
    simp only [audioC10, List.length_replicate]
    norm_num [pyround]
  refine ⟨by norm_num, hs, ?_⟩
  rw [clipTransform, applyGainScale]
  simp only [List.length_map]
  rw [hpr, hs, hl, sliceMs, hlen]
  norm_num
  rw [show frameCountMs audioC10 0 = 0 from by rw [frameCountMs]; norm_num [pytrunc]]
  rw [show frameCountMs audioC10 20 = 20 from by
    rw [frameCountMs]; simp only [audioC10]; norm_num [pytrunc]]
  rw [getSampleSlice]
  simp only [boundFrame, audioC10, List.length_replicate]
  norm_num
  decide

/-- C10 amended: when the trim index `int(start*1000)` is actually
negative, the slice end `int(start*1000) + int(length*1000)` is also
negative, and the end-relative index stays within the pitched clip, the
transform does not fail and equals the gain-scaled slice taken relative
to the clip's end: the window starting `|int(start*1000)|` milliseconds
before the end of the pitched clip — material from near the tail, with
nothing trimmed from the head. -/
theorem C10_amended_tail_slice (audio : AudioSegment) (start len vol pitch : ℚ)
    (h1 : pytrunc (start * 1000) < 0)
    (h2 : 0 ≤ pytrunc (len * 1000))
    (h3 : pytrunc (start * 1000) + pytrunc (len * 1000) < 0)
    (h4 : 0 ≤ lenMs (pitchResample audio (clampParam pitch)) + pytrunc (start * 1000)) :
    clipTransform audio start len vol pitch
      = applyGainScale
          (sliceMs (pitchResample audio (clampParam pitch))
            (pytrunc (start * 1000) + lenMs (pitchResample audio (clampParam pitch)))
            (pytrunc (start * 1000) + pytrunc (len * 1000)
              + lenMs (pitchResample audio (clampParam pitch))))
          (clampParam vol) := by
  rw [clipTransform]
  congr 1
  rw [sliceMs, sliceMs]
  rw [show min (pytrunc (start * 1000)) (lenMs (pitchResample audio (clampParam pitch)))
        = pytrunc (start * 1000) from min_eq_left (by omega)]
  rw [show min (pytrunc (start * 1000) + pytrunc (len * 1000))
        (lenMs (pitchResample audio (clampParam pitch)))
        = pytrunc (start * 1000) + pytrunc (len * 1000) from min_eq_left (by omega)]
  rw [show min (pytrunc (start * 1000) + lenMs (pitchResample audio (clampParam pitch)))
        (lenMs (pitchResample audio (clampParam pitch)))
        = pytrunc (start * 1000) + lenMs (pitchResample audio (clampParam pitch))
        from min_eq_left (by omega)]
  rw [show min (pytrunc (start * 1000) + pytrunc (len * 1000)
          + lenMs (pitchResample audio (clampParam pitch)))
        (lenMs (pitchResample audio (clampParam pitch)))
        = pytrunc (start * 1000) + pytrunc (len * 1000)
          + lenMs (pitchResample audio (clampParam pitch))
        from min_eq_left (by omega)]
  rw [if_pos h1, if_pos h3,
      if_neg (by omega :
        ¬ pytrunc (start * 1000) + lenMs (pitchResample audio (clampParam pitch)) < 0),
      if_neg (by omega :
        ¬ pytrunc (start * 1000) + pytrunc (len * 1000)
            + lenMs (pitchResample audio (clampParam pitch)) < 0)]

/-- Witness for the amended C10: `start = -0.01`, `length = 0.005` on a
0.02-second clip — the extracted window is taken 10 ms before the end. -/
theorem C10_amended_tail_slice_witness :
    pytrunc ((-1/100 : ℚ) * 1000) < 0
    ∧ pytrunc ((-1/100 : ℚ) * 1000) + pytrunc ((1/200 : ℚ) * 1000) < 0
    ∧ clipTransform audioC10 (-1/100) (1/200) 1 1
        = applyGainScale
            (sliceMs (pitchResample audioC10 (clampParam 1))
              (pytrunc ((-1/100 : ℚ) * 1000) + lenMs (pitchResample audioC10 (clampParam 1)))
              (pytrunc ((-1/100 : ℚ) * 1000) + pytrunc ((1/200 : ℚ) * 1000)
                + lenMs (pitchResample audioC10 (clampParam 1))))
            (clampParam 1) := by
  have hcp : clampParam (1:ℚ) = 1 := max_eq_left (by norm_num [epsFloor])
  have hpr : pitchResample audioC10 (clampParam 1) = audioC10 := by
    rw [pitchResample, hcp]
    simp only [audioC10]
    norm_num [pytrunc]
    rfl
  have hlen : lenMs audioC10 = 20 := by
    rw [lenMs]
    simp only [audioC10, List.length_replicate]
    norm_num [pyround]
  have hs : pytrunc ((-1/100 : ℚ) * 1000) = -10 := by norm_num [pytrunc]
  have hl : pytrunc ((1/200 : ℚ) * 1000) = 5 := by norm_num [pytrunc]
  refine ⟨by rw [hs]; norm_num, by rw [hs, hl]; norm_num, ?_⟩
  exact C10_amended_tail_slice audioC10 (-1/100) (1/200) 1 1
    (by rw [hs]; norm_num)
    (by rw [hl]; norm_num)
    (by rw [hs, hl]; norm_num)
    (by rw [hpr, hlen, hs]; norm_num)

theorem loudnessProfile_length (y : List ℚ) (sr : ℕ) (spacing : ℚ) :
    (loudnessProfile y sr spacing).length = nIntervals y sr spacing := by
  rw [loudnessProfile, apply_ite List.length]
  simp only [List.length_map, rmsList, bucketMeanPowers, List.length_range, ite_self]

/-- C3 (amended): the profile has exactly
`bucketCount = ceil(len(y) / spacingSamples)` values, with
`spacingSamples = max(round(spacing * sampleRate), 1)`; when
`spacing * sampleRate` is a positive integer this agrees with
`ceil(duration / spacing)`, but in general the two counts differ. -/
theorem C3_bucket_count (y : List ℚ) (sr : ℕ) (spacing : ℚ) (hy : y ≠ []) :
    (loudnessProfile y sr spacing).length
      = (⌈(y.length : ℚ) / (spacingSamples sr spacing : ℚ)⌉).toNat
    ∧ (∀ k : ℕ, 0 < k → spacing * (sr : ℚ) = (k : ℚ) →
        (loudnessProfile y sr spacing).length
          = (⌈((y.length : ℚ) / (sr : ℚ)) / spacing⌉).toNat) := by
  constructor
  · rw [loudnessProfile_length, nIntervals]
  · intro k hk hsp
    have hss : spacingSamples sr spacing = k := by
      rw [spacingSamples, hsp, pyround_natCast]
      omega
    rw [loudnessProfile_length, nIntervals, hss, div_div, mul_comm (sr : ℚ) spacing, hsp]

/-- Witness for the amended C3 at a one-sample signal. -/
theorem C3_bucket_count_witness :
    (([(1:ℚ)]) ≠ [])
    ∧ (loudnessProfile [(1:ℚ)] 1 1).length
        = (⌈((List.length [(1:ℚ)] : ℚ)) / (spacingSamples 1 1 : ℚ)⌉).toNat :=
  ⟨List.cons_ne_nil _ _, (C3_bucket_count [(1:ℚ)] 1 1 (List.cons_ne_nil _ _)).1⟩

/-- C3 counterexample: two samples at 2 Hz (a 1.0-second signal) with
spacing 0.75 s give `spacingSamples = round(1.5) = 2`, hence a single
bucket, while `ceil(duration / spacing) = ceil(4/3) = 2`. -/
theorem C3_counterexample :
    (loudnessProfile [(1:ℚ), 1] 2 (3/4)).length = 1
    ∧ (⌈(((2:ℚ)) / (2:ℚ)) / (3/4)⌉).toNat = 2 := by
  constructor
  · rw [loudnessProfile_length, nIntervals]
    have hss : spacingSamples 2 (3/4) = 2 := by
      rw [spacingSamples]
      rw [show ((3:ℚ)/4 * (2:ℕ)) = 3/2 by push_cast; norm_num]
      rw [show pyround (3/2 : ℚ) = 2 from by norm_num [pyround]]
      rfl
    rw [hss]
    rw [show ((List.length [(1:ℚ), 1] : ℚ)) = 2 by norm_num]
    rw [show ((2:ℕ):ℚ) = 2 by norm_num]
    rw [show (⌈(2:ℚ)/2⌉) = 1 from by norm_num]
    rfl
  · rw [show (((2:ℚ)) / (2:ℚ)) / (3/4) = 4/3 by norm_num]
    rw [show (⌈(4:ℚ)/3⌉) = 2 from by rw [Int.ceil_eq_iff] <;> norm_num]
    rfl

theorem getD_zero_of_all_zero {l : List ℚ} (h : ∀ x ∈ l, x = 0) (k : ℕ) :
    l.getD k 0 = 0 := by
  induction l generalizing k with
  | nil => rfl
  | cons a as ih =>
    cases k with
    | zero => exact h a (List.mem_cons_self a as)
    | succ m =>
      rw [List.getD_cons_succ]
      exact ih (fun x hx => h x (List.mem_cons_of_mem a hx)) m

theorem scanl_add_all_zero {l : List ℚ} (h : ∀ v ∈ l, v = 0) :
    ∀ a, a = 0 → ∀ x ∈ List.scanl (· + ·) a l, x = 0 := by
  induction l with
  | nil =>
    intro a ha x hx
    rw [List.scanl_nil, List.mem_singleton] at hx
    rw [hx, ha]
  | cons v vs ih =>
    intro a ha x hx
    rw [List.scanl_cons] at hx
    rcases List.mem_cons.mp hx with h1 | h1
    · rw [h1, ha]
    · exact ih (fun w hw => h w (List.mem_cons_of_mem v hw)) (a + v)
        (by rw [ha, h v (List.mem_cons_self v vs), add_zero]) x h1

theorem cumsum_all_zero {y : List ℚ} (h : ∀ v ∈ y, v = 0) :
    ∀ x ∈ cumsumList y, x = 0 := by
  rw [cumsumList]
  apply scanl_add_all_zero _ 0 rfl
  intro p hp
  rcases List.mem_map.mp hp with ⟨v, hv, rfl⟩
  rw [h v hv]
  norm_num

theorem bucketMeanPowers_all_zero {y : List ℚ} (sr : ℕ) (spacing : ℚ)
    (h : ∀ v ∈ y, v = 0) : ∀ m ∈ bucketMeanPowers y sr spacing, m = 0 := by
  intro m hm
  rcases List.mem_map.mp hm with ⟨i, _, rfl⟩
  rw [getD_zero_of_all_zero (cumsum_all_zero h), getD_zero_of_all_zero (cumsum_all_zero h)]
  simp

theorem rmsList_nonneg (y : List ℚ) (sr : ℕ) (spacing : ℚ) :
    ∀ r ∈ rmsList y sr spacing, 0 ≤ r := by
  intro r hr
  rcases List.mem_map.mp hr with ⟨q, _, rfl⟩
  exact Real.sqrt_nonneg _

/-- C4: every profile value is at most 1; an all-zero signal yields
all-zero bucket rms values; when every bucket rms is 0 the zero branch
produces an all-zero profile without dividing; and when some bucket rms
is nonzero the bucket attaining the maximum normalizes to exactly 1. -/
theorem C4_profile_normalization (y : List ℚ) (sr : ℕ) (spacing : ℚ) :
    (∀ v ∈ loudnessProfile y sr spacing, v ≤ 1)
    ∧ ((∀ v ∈ y, v = 0) → ∀ r ∈ rmsList y sr spacing, r = 0)
    ∧ ((∀ r ∈ rmsList y sr spacing, r = 0) → ∀ v ∈ loudnessProfile y sr spacing, v = 0)
    ∧ ((∃ r ∈ rmsList y sr spacing, r ≠ 0) → ∃ v ∈ loudnessProfile y sr spacing, v = 1) := by
  refine ⟨?_, ?_, ?_, ?_⟩
  · intro v hv
    rw [loudnessProfile] at hv
    by_cases h : pymax 1 (rmsList y sr spacing) = 0
    · rw [if_pos h] at hv
      rcases List.mem_map.mp hv with ⟨r, _, rfl⟩
      norm_num
    · rw [if_neg h] at hv
      rcases List.mem_map.mp hv with ⟨r, _, rfl⟩
      exact min_le_right _ 1
  · intro hy r hr
    rcases List.mem_map.mp hr with ⟨q, hq, rfl⟩
    rw [bucketMeanPowers_all_zero sr spacing hy q hq]
    norm_num
  · intro hz v hv
    rw [loudnessProfile] at hv
    cases hr : rmsList y sr spacing with
    | nil =>
      rw [hr] at hv
      simp at hv
    | cons a as =>
      have hmax : pymax 1 (rmsList y sr spacing) = 0 := by
        apply hz
        rw [hr]
        exact pymax_mem 1 (List.cons_ne_nil a as)
      rw [if_pos hmax] at hv
      rcases List.mem_map.mp hv with ⟨r, _, rfl⟩
      rfl
  · rintro ⟨r, hr, hr0⟩
    have hrpos : 0 < r := lt_of_le_of_ne (rmsList_nonneg y sr spacing r hr) (Ne.symm hr0)
    have hrne : rmsList y sr spacing ≠ [] := by
      intro hc
      rw [hc] at hr
      cases hr
    have hmaxpos : 0 < pymax 1 (rmsList y sr spacing) :=
      lt_of_lt_of_le hrpos (le_pymax 1 hr)
    refine ⟨min (pymax 1 (rmsList y sr spacing) / pymax 1 (rmsList y sr spacing)) 1, ?_, ?_⟩
    · rw [loudnessProfile, if_neg (ne_of_gt hmaxpos)]
      exact List.mem_map_of_mem _ (pymax_mem 1 hrne)
    · rw [div_self (ne_of_gt hmaxpos), min_self]

/-- Witness for C4 on the one-sample signal `[1]`: its single bucket has
rms 1, and the profile contains the value 1. -/
theorem C4_profile_normalization_witness :
    (∃ r ∈ rmsList [(1:ℚ)] 1 1, r ≠ 0)
    ∧ (∃ v ∈ loudnessProfile [(1:ℚ)] 1 1, v = 1) := by
  have hss : spacingSamples 1 1 = 1 := by
    rw [spacingSamples]
    rw [show ((1:ℚ) * (1:ℕ)) = ((1:ℕ) : ℚ) by push_cast; norm_num]
    rw [pyround_natCast]
    rfl
  have hn : nIntervals [(1:ℚ)] 1 1 = 1 := by
    rw [nIntervals, hss]
    rw [show ((List.length [(1:ℚ)] : ℚ)) / (((1:ℕ)) : ℚ) = 1 by norm_num]
    rw [show (⌈(1:ℚ)⌉) = 1 from by norm_num]
    rfl
  have hbm : bucketMeanPowers [(1:ℚ)] 1 1 = [1] := by
    rw [bucketMeanPowers, hn, hss, show List.range 1 = [0] from by decide, List.map_singleton]
    rw [cumsumList, powerList, List.map_singleton, List.scanl_cons, List.scanl_nil]
    norm_num
  have hex : ∃ r ∈ rmsList [(1:ℚ)] 1 1, r ≠ 0 := by
    refine ⟨1, ?_, one_ne_zero⟩
    rw [rmsList, hbm, List.map_singleton]
    simp
  exact ⟨hex, (C4_profile_normalization [(1:ℚ)] 1 1).2.2.2 hex⟩

/-- C7: with trimming disabled the signal passes through unchanged; with
trimming enabled a nonempty signal never becomes empty (the source falls
back to the original when the trimmed result is empty); and when every
analysis frame is below the threshold the original untrimmed signal is
returned. -/
theorem C7_trim_never_empty (y : List ℚ) (enableTrim : Bool) (ratio : ℚ) (fl hop : ℕ) :
    (robust_trim y false ratio fl hop = y)
    ∧ (y ≠ [] → robust_trim y enableTrim ratio fl hop ≠ [])
    ∧ ((∀ e ∈ trimFrameEnergies y fl hop, ¬ ratio * trimPeak y fl hop < e) →
        robust_trim y true ratio fl hop = y) := by
  refine ⟨rfl, ?_, ?_⟩
  · intro hy
    cases enableTrim with
    | false => exact hy
    | true =>
      rw [robust_trim, if_neg (by simp)]
      split_ifs with h
      · intro hc
        rw [hc] at h
        exact lt_irrefl 0 h
      · exact hy
  · intro hall
    have hfilter : (List.range ((y.length + hop - 1) / hop)).filter
        (fun i => decide (ratio * trimPeak y fl hop < frameEnergy y (i * hop) fl)) = [] := by
      rw [List.filter_eq_nil]
      intro i hi
      simp only [decide_eq_true_eq]
      exact hall _ (List.mem_map_of_mem _ hi)
    have hnil : librosaTrim y ratio fl hop = [] := by
      rw [librosaTrim, hfilter]
      rfl
    rw [robust_trim, if_neg (by simp), hnil]
    simp

/-- Witness for C7 on the fully silent signal `[0, 0]`: every frame is
below threshold and the original signal is returned intact. -/
theorem C7_trim_never_empty_witness :
    (([(0:ℚ), 0]) ≠ [])
    ∧ robust_trim [(0:ℚ), 0] true (1/2) 2 1 ≠ []
    ∧ robust_trim [(0:ℚ), 0] true (1/2) 2 1 = [0, 0] := by
  have htf : trimFrameEnergies [(0:ℚ), 0] 2 1 = [0, 0] := by
    rw [trimFrameEnergies]
    rw [show (([(0:ℚ), 0].length + 1 - 1) / 1) = 2 by norm_num]
    rw [show List.range 2 = [0, 1] from by decide]
    rw [List.map_cons, List.map_cons, List.map_nil]
    rw [frameEnergy, frameEnergy]
    norm_num [List.foldl]
  have hpk : trimPeak [(0:ℚ), 0] 2 1 = 0 := by
    rw [trimPeak, htf, pymax]
    norm_num [List.foldl]
  have hall : ∀ e ∈ trimFrameEnergies [(0:ℚ), 0] 2 1,
      ¬ (1/2 : ℚ) * trimPeak [(0:ℚ), 0] 2 1 < e := by
    intro e he
    rw [htf] at he
    rw [hpk]
    rcases List.mem_cons.mp he with h | h
    · rw [h]; norm_num
    · rw [List.mem_singleton.mp h]; norm_num
  refine ⟨List.cons_ne_nil _ _, ?_, ?_⟩
  · exact (C7_trim_never_empty [(0:ℚ), 0] true (1/2) 2 1).2.1 (List.cons_ne_nil _ _)
  · exact (C7_trim_never_empty [(0:ℚ), 0] true (1/2) 2 1).2.2 hall

def clipC6 : ClipSpec := { offset := 0, start := 0, length := 1, volume := 1, pitch := 0 }

/-- Witness for C6 at a clip with `pitch = 0`: the clamp raises it to the
1e-8 floor and the stretched-duration estimate stays finite. -/
theorem C6_epsilon_floor_safety_witness :
    ((0:ℚ) ≤ epsFloor)
    ∧ 0 < clampParam clipC6.pitch
    ∧ (clampParam clipC6.pitch = epsFloor
        ∧ estEnd clipC6 = clipC6.offset + clipC6.length * 100000000) :=
  ⟨by norm_num [epsFloor],
   (C6_epsilon_floor_safety clipC6).2.1,
   (C6_epsilon_floor_safety clipC6).2.2.2.2 (by norm_num [clipC6, epsFloor])⟩
